import Mathlib

/-!
Verification development for `hf_asr_scraper.py` (translatorswb/asr-benchmarking).

The script is a sequential fetch-parse-aggregate pipeline.  We embed it
shallowly: the network is an explicit oracle (a `Net` record of response
functions), Python exceptions become `Except`, the `model_cache` dict and
Python sets become association lists / insertion-ordered duplicate-free
lists, and `pandas` data frames become lists of row records.  Listing
requests are issued in two separate passes over the network (the "collect"
pass and the "organize" pass of `scrape_all_languages`); the oracle's page
function therefore takes a per-pass flag so that the two passes may observe
different responses, as a real remote endpoint may answer each pass
differently.
-/

set_option maxRecDepth 4000

/-- A result card of the search page: the list of its anchor elements in
document order, each carrying `some href` when the anchor has an `href`
attribute (with that attribute's value) and `none` when it does not.
`find('a', href=True)` on such a card is `card.findSome? id`. -/
abbrev Card := List (Option String)

/-- Model of Python's `href.lstrip('/')`: drop every leading `'/'`. -/
def stripSlashes (s : String) : String :=
  ⟨s.data.dropWhile (fun c => c = '/')⟩

/-- Embedding of `parse_model_names_from_page`: for each card take the first
anchor bearing an `href` attribute (`card.find('a', href=True)`), read its
`href` (`link.get('href', '')`), strip leading slashes, and append it unless
it is empty or `'#'`. -/
def parse_model_names_from_page (cards : List Card) : List String :=
  cards.foldl
    (fun acc card =>
      match card.findSome? id with
      | some href =>
        let model_name := stripSlashes href
        if model_name ≠ "" ∧ model_name ≠ "#" then acc ++ [model_name] else acc
      | none => acc)
    []

/-- Modelled from the spec's wording of the listing-parser contract: one
identifier per result-card whose first target-bearing hyperlink exists, namely
that hyperlink's target with leading separators stripped, discarding empty and
placeholder (`#`) targets, in page order, duplicates kept. -/
def parseListingSpec (cards : List Card) : List String :=
  cards.filterMap
    (fun card =>
      (card.findSome? id).bind
        (fun href =>
          let target := stripSlashes href
          if target ≠ "" ∧ target ≠ "#" then some target else none))

/-- One listing-page response: `.error ()` when the GET raises (network
error, timeout, or `raise_for_status` on a non-success status), `.ok cards`
when a page of markup was received and soup-parsed into result cards. -/
abbrev PageResp := Except Unit (List Card)

/-- Loop body of `get_model_names_for_language`: `fuel` pages remain,
`page` is the current page index, `acc` the names gathered so far.  A fetch
error breaks out of the loop (returning `acc`); a page parsing to zero
models likewise breaks; otherwise the page's models are appended and the
next page is fetched. -/
def gmnlAux (fetch : String → Nat → PageResp) (code : String) :
    Nat → Nat → List String → List String
  | 0, _, acc => acc
  | fuel + 1, page, acc =>
    match fetch code page with
    | .error _ => acc
    | .ok cards =>
      let page_models := parse_model_names_from_page cards
      if page_models = [] then acc
      else gmnlAux fetch code fuel (page + 1) (acc ++ page_models)

/-- Embedding of `get_model_names_for_language(language_code, max_pages)`. -/
def get_model_names_for_language (fetch : String → Nat → PageResp)
    (code : String) (maxPages : Nat) : List String :=
  gmnlAux fetch code maxPages 0 []

theorem parse_model_names_from_page_eq_foldl (cards : List Card)
    (acc : List String) :
    cards.foldl
      (fun acc card =>
        match card.findSome? id with
        | some href =>
          let model_name := stripSlashes href
          if model_name ≠ "" ∧ model_name ≠ "#" then acc ++ [model_name]
          else acc
        | none => acc)
      acc = acc ++ parseListingSpec cards := by
  induction cards generalizing acc with
  | nil => simp [parseListingSpec]
  | cons card rest ih =>
    have hspec : parseListingSpec (card :: rest) =
        parseListingSpec [card] ++ parseListingSpec rest := by
      unfold parseListingSpec
      rw [← List.singleton_append, List.filterMap_append]
    rw [List.foldl_cons, hspec]
    cases h : card.findSome? id with
    | none =>
      simp only [h]
      rw [ih]
      simp [parseListingSpec, h]
    | some href =>
      simp only [h]
      by_cases hok : stripSlashes href ≠ "" ∧ stripSlashes href ≠ "#"
      · rw [if_pos hok, ih]
        simp [parseListingSpec, h, hok]
      · rw [if_neg hok, ih]
        simp [parseListingSpec, h, hok]

/-- Association-list lookup modelling Python dict access (`k in d`, `d[k]`);
entries are appended on first insertion, so keys are unique and the first
match is the only match. -/
def alookup {α : Type} : List (String × α) → String → Option α
  | [], _ => none
  | e :: es, k => if e.1 = k then some e.2 else alookup es k

/-- A model's stats record, as built by `get_model_stats`. -/
structure ModelStats where
  name : String
  url : String
  downloads : Nat
  downloads_all_time : Nat
  likes : Nat
deriving DecidableEq

/-- Payload of the downloads metadata call
(`?expand[]=downloads&expand[]=downloadsAllTime`); each field is `none`
when absent from the JSON object (`dict.get` then defaults it to `0`). -/
structure DlData where
  downloads : Option Nat
  downloadsAllTime : Option Nat
deriving DecidableEq

/-- Payload of the likes metadata call (`?expand[]=likes`). -/
structure LikesData where
  likes : Option Nat
deriving DecidableEq

/-- The network oracle.  `page pass3 code p` answers the listing GET for a
language code and page index; the `pass3` flag distinguishes the collect
pass from the organize pass of `scrape_all_languages`, which re-issues the
same requests and may be answered differently.  `dl name` and `likes name`
answer the two metadata GETs: `.error ()` when the GET itself raises, and
otherwise the HTTP status code paired with the result of `.json()`
(`.error ()` for a malformed payload — only forced when the status is 200,
since the code only calls `.json()` then). -/
structure Net where
  page : Bool → String → Nat → PageResp
  dl : String → Except Unit (Nat × Except Unit DlData)
  likes : String → Except Unit (Nat × Except Unit LikesData)

/-- The body of `get_model_stats`'s `try` block: downloads GET, `.json()`
if the status is 200 (else an empty dict), likes GET, `.json()` if 200,
then assemble the record with missing fields defaulting to zero.  An
`.error` value is a Python exception escaping the `try` block. -/
def statsFetch (net : Net) (model_name : String) : Except Unit ModelStats := do
  let r1 ← net.dl model_name
  let downloads_data ← if r1.1 = 200 then r1.2 else .ok ⟨none, none⟩
  let r2 ← net.likes model_name
  let likes_data ← if r2.1 = 200 then r2.2 else .ok ⟨none⟩
  .ok { name := model_name
        url := "https://huggingface.co/" ++ model_name
        downloads := downloads_data.downloads.getD 0
        downloads_all_time := downloads_data.downloadsAllTime.getD 0
        likes := likes_data.likes.getD 0 }

/-- The zero-valued record built in `get_model_stats`'s `except` branch. -/
def failureStats (model_name : String) : ModelStats :=
  { name := model_name
    url := "https://huggingface.co/" ++ model_name
    downloads := 0
    downloads_all_time := 0
    likes := 0 }

/-- The process-lifetime `model_cache` dict. -/
abbrev Cache := List (String × ModelStats)

/-- Result of one `get_model_stats` call: the returned record, the cache
after the call, and whether any network activity happened. -/
structure FetchOut where
  stats : ModelStats
  cache : Cache
  net : Bool
deriving DecidableEq

/-- Embedding of `get_model_stats`: cache hit returns the stored record with
no network activity; otherwise the two metadata calls are attempted, an
escaping exception is replaced by the zero-valued record, and the outcome is
stored in the cache before being returned. -/
def get_model_stats (net : Net) (cache : Cache) (model_name : String) :
    FetchOut :=
  match alookup cache model_name with
  | some s => ⟨s, cache, false⟩
  | none =>
    match statsFetch net model_name with
    | .ok s => ⟨s, cache ++ [(model_name, s)], true⟩
    | .error _ =>
      let z := failureStats model_name
      ⟨z, cache ++ [(model_name, z)], true⟩

/-- A sequence of `get_model_stats` calls threaded through the cache,
recording for each call the identifier asked for and whether the call
touched the network. -/
def runStats (net : Net) : Cache → List String → Cache × List (String × Bool)
  | cache, [] => (cache, [])
  | cache, n :: ns =>
    let r := get_model_stats net cache n
    let rest := runStats net r.cache ns
    (rest.1, (n, r.net) :: rest.2)

/-- Number of network stats lookups performed for identifier `n` in a list
of call events. -/
def countFetches (evs : List (String × Bool)) (n : String) : Nat :=
  evs.countP (fun e => decide (e.1 = n) && e.2)

deriving instance DecidableEq for Except

/-- Model of Python's `str.lower()` on the ASCII language names of the
script: lower-case each character. -/
def pyLower (s : String) : String :=
  ⟨s.data.map Char.toLower⟩

/-- The static language table of the script, in source order. -/
def LANGUAGES : List (String × List String) :=
  [("Zulu", ["zu", "zul"]),
   ("Luo", ["luo"]),
   ("Kikuyu", ["ki", "kik"]),
   ("Yoruba", ["yo", "yor"]),
   ("Igbo", ["ig", "ibo"]),
   ("Hausa", ["ha", "hau"]),
   ("Amharic", ["am", "amh"]),
   ("Tigrinya", ["ti", "tir"]),
   ("Sidoma", ["sid"]),
   ("Oromo", ["om"]),
   ("Wolaytta", ["wal"])]

/-- Python `set.update`: add each element of `xs` that is not yet present.
Sets are modelled as duplicate-free lists in insertion order. -/
def setUpdate (s : List String) (xs : List String) : List String :=
  xs.foldl (fun a x => if x ∈ a then a else a ++ [x]) s

/-- The `language_models` set of one language in the organize pass (and,
with the other pass flag, the per-language contribution to the collect
pass): the union of the listings of the language's code aliases, each
listed with `max_pages=2`. -/
def languageModels (fetch : String → Nat → PageResp) (codes : List String) :
    List String :=
  codes.foldl (fun a c => setUpdate a (get_model_names_for_language fetch c 2)) []

/-- The `all_unique_models` set of the collect pass of
`scrape_all_languages`: every identifier listed for any code alias of any
configured language, each code listed with `max_pages=2`. -/
def allUniqueModels (net : Net) : List String :=
  LANGUAGES.foldl
    (fun acc p =>
      p.2.foldl (fun a c => setUpdate a (get_model_names_for_language (net.page false) c 2)) acc)
    []

/-- The stats pass of `scrape_all_languages`: call `get_model_stats` once
for every collected identifier, threading the cache. -/
def statsPass (net : Net) (xs : List String) : Cache :=
  xs.foldl (fun c n => (get_model_stats net c n).cache) []

/-- The `models` loop of the organize pass: `self.model_cache[model_name]`
for each identifier, in set order; a missing key raises `KeyError`. -/
def lookupAll (cache : Cache) : List String → Except String (List ModelStats)
  | [] => .ok []
  | n :: ns =>
    match alookup cache n with
    | some s =>
      match lookupAll cache ns with
      | .ok rest => .ok (s :: rest)
      | .error e => .error e
    | none => .error ("KeyError: " ++ n)

/-- The organize pass of `scrape_all_languages`: for each configured
language, re-list its code aliases and map the resulting identifier set to
cached records. -/
def organizePass (net : Net) (cache : Cache) :
    List (String × List String) → Except String (List (String × List ModelStats))
  | [] => .ok []
  | p :: ps =>
    match lookupAll cache (languageModels (net.page true) p.2) with
    | .ok ms =>
      match organizePass net cache ps with
      | .ok rest => .ok ((p.1, ms) :: rest)
      | .error e => .error e
    | .error e => .error e

/-- Embedding of `scrape_all_languages`: collect all unique identifiers,
fetch stats for each, then organize by language from the cache.  The
result (on success) is the `results` dict, in `LANGUAGES` order. -/
def scrape_all_languages (net : Net) :
    Except String (List (String × List ModelStats)) :=
  organizePass net (statsPass net (allUniqueModels net)) LANGUAGES

/-- One value of the `all_models` dict of `create_language_matrix`. -/
structure ModelInfo where
  name : String
  url : String
  downloads : Nat
  downloads_all_time : Nat
  likes : Nat
  supported_languages : List String
deriving DecidableEq

/-- Python `set.add`: append if absent. -/
def addToSet (s : List String) (x : String) : List String :=
  if x ∈ s then s else s ++ [x]

/-- Add `language` to the `supported_languages` set of the entry keyed by
`key` (a no-op for every other entry). -/
def addLang (d : List (String × ModelInfo)) (key language : String) :
    List (String × ModelInfo) :=
  d.map (fun e =>
    if e.1 = key then
      (e.1, { e.2 with supported_languages := addToSet e.2.supported_languages language })
    else e)

/-- One iteration of the model-database loop of `create_language_matrix`:
insert a fresh entry when the model is not yet a key, then add the current
language to its `supported_languages`. -/
def insertModel (d : List (String × ModelInfo)) (language : String)
    (m : ModelStats) : List (String × ModelInfo) :=
  let d1 :=
    if (alookup d m.name).isSome then d
    else d ++ [(m.name, ⟨m.name, m.url, m.downloads, m.downloads_all_time, m.likes, []⟩)]
  addLang d1 m.name language

/-- The inner loop of the model-database construction, over one language's
record list. -/
def processLang (d : List (String × ModelInfo)) (language : String)
    (ms : List ModelStats) : List (String × ModelInfo) :=
  ms.foldl (fun d m => insertModel d language m) d

/-- The `all_models` dict of `create_language_matrix`, built over the
`results` dict in iteration order. -/
def buildAllModels (results : List (String × List ModelStats)) :
    List (String × ModelInfo) :=
  results.foldl (fun d p => processLang d p.1 p.2) []

/-- One row of the support matrix: the model columns plus one
`'Yes'`/`'No'` cell per configured language. -/
structure Row where
  model : String
  url : String
  downloads : Nat
  downloads_all_time : Nat
  likes : Nat
  languages_supported : Nat
  cells : List (String × String)
deriving DecidableEq

/-- The `matrix_data` list of `create_language_matrix`, before sorting. -/
def matrixRows (results : List (String × List ModelStats)) : List Row :=
  (buildAllModels results).map
    (fun e =>
      { model := e.2.name
        url := e.2.url
        downloads := e.2.downloads
        downloads_all_time := e.2.downloads_all_time
        likes := e.2.likes
        languages_supported := e.2.supported_languages.length
        cells := LANGUAGES.map
          (fun p => (p.1, if p.1 ∈ e.2.supported_languages then "Yes" else "No")) })

/-- Row order of `sort_values(['Languages_Supported', 'Likes'],
ascending=[False, False])`: `a` may come before `b` iff `a`'s
(support count, likes) pair is lexicographically at least `b`'s. -/
def rowLE (a b : Row) : Prop :=
  b.languages_supported < a.languages_supported ∨
    (b.languages_supported = a.languages_supported ∧ b.likes ≤ a.likes)

instance : DecidableRel rowLE := fun a b => by
  unfold rowLE
  infer_instance

instance : IsTotal Row rowLE :=
  ⟨by intro a b; unfold rowLE; omega⟩

instance : IsTrans Row rowLE :=
  ⟨by intro a b c; unfold rowLE; omega⟩

/-- Embedding of `create_language_matrix`: build the rows and sort them.
With zero rows, `pd.DataFrame([])` has no columns and
`sort_values(['Languages_Supported', 'Likes'])` raises a `KeyError`, so the
empty case is an error. -/
def create_language_matrix (results : List (String × List ModelStats)) :
    Except String (List Row) :=
  let rows := matrixRows results
  if rows.isEmpty then .error "KeyError: Languages_Supported"
  else .ok (List.insertionSort rowLE rows)

/-- The per-language files written by `save_results`: one
`asr_models_<language>.csv` per language with a non-empty record list, in
`results` order, holding one data row per record. -/
def savedLanguageFiles (results : List (String × List ModelStats)) :
    List (String × List ModelStats) :=
  results.foldl
    (fun acc p =>
      if p.2.isEmpty then acc
      else acc ++ [("asr_models_" ++ pyLower p.1 ++ ".csv", p.2)])
    []

/-- The pipeline of `main`: scrape, build the matrix, save.  The value on
success is the `results` dict, the sorted matrix, and the per-language
files written. -/
def main_run (net : Net) :
    Except String
      ((List (String × List ModelStats)) × List Row × List (String × List ModelStats)) :=
  match scrape_all_languages net with
  | .error e => .error e
  | .ok results =>
    match create_language_matrix results with
    | .error e => .error e
    | .ok matrix => .ok (results, matrix, savedLanguageFiles results)

/-- Number of rows carrying a `'Yes'` flag in language `L`'s column. -/
def countYes (matrix : List Row) (L : String) : Nat :=
  matrix.countP (fun r => decide (alookup r.cells L = some "Yes"))

/-- The `supported_languages` set of the entry for `n`, `[]` when `n` is
not a key. -/
def langsOf (d : List (String × ModelInfo)) (n : String) : List String :=
  match alookup d n with
  | some info => info.supported_languages
  | none => []

/-- C8: for every markup page, the listing parser returns, in page order,
one identifier per result-card whose first target-bearing hyperlink exists:
that hyperlink's target with leading `'/'` separators stripped, excluding
targets that are empty or the placeholder `'#'` after stripping; duplicates
are kept.  (`find('a', href=True)` selects the first contained hyperlink
that has a target.)  Stated as: the embedded parser coincides with the
spec-worded extraction on every page. -/
theorem c8_parser_contract (cards : List Card) :
    parse_model_names_from_page cards = parseListingSpec cards := by
  simpa [parse_model_names_from_page] using
    parse_model_names_from_page_eq_foldl cards []

theorem gmnlAux_halts (fetch : String → Nat → PageResp) (code : String) :
    ∀ (k fuel page : Nat) (acc : List String), k < fuel →
    (∀ j, j < k → ∃ cards, fetch code (page + j) = .ok cards ∧
        parse_model_names_from_page cards ≠ []) →
    (fetch code (page + k) = .error () ∨ ∃ cards, fetch code (page + k) = .ok cards ∧
        parse_model_names_from_page cards = []) →
    gmnlAux fetch code fuel page acc =
      acc ++ ((List.range k).map
        (fun j => parse_model_names_from_page ((fetch code (page + j)).toOption.getD []))).flatten := by
  intro k
  induction k with
  | zero =>
    intro fuel page acc hk hgood hbad
    obtain ⟨fuel', rfl⟩ : ∃ f, fuel = f + 1 := ⟨fuel - 1, by omega⟩
    rcases hbad with hbad | ⟨cards, hc, hp⟩
    · simp only [Nat.add_zero] at hbad
      simp [gmnlAux, hbad]
    · simp only [Nat.add_zero] at hc
      simp [gmnlAux, hc, hp]
  | succ k ih =>
    intro fuel page acc hk hgood hbad
    obtain ⟨fuel', rfl⟩ : ∃ f, fuel = f + 1 := ⟨fuel - 1, by omega⟩
    obtain ⟨cards, hc, hp⟩ := hgood 0 (Nat.succ_pos k)
    simp only [Nat.add_zero] at hc
    have hstep : gmnlAux fetch code (fuel' + 1) page acc =
        gmnlAux fetch code fuel' (page + 1) (acc ++ parse_model_names_from_page cards) := by
      simp [gmnlAux, hc, hp]
    rw [hstep]
    rw [ih fuel' (page + 1) (acc ++ parse_model_names_from_page cards) (by omega)
      (fun j hj => by
        obtain ⟨cs, h1, h2⟩ := hgood (j + 1) (by omega)
        exact ⟨cs, by rw [show page + 1 + j = page + (j + 1) by omega]; exact h1, h2⟩)
      (by rw [show page + 1 + k = page + (k + 1) by omega]; exact hbad)]
    have hfun : ∀ j : Nat,
        parse_model_names_from_page ((fetch code (page + 1 + j)).toOption.getD []) =
        parse_model_names_from_page ((fetch code (page + Nat.succ j)).toOption.getD []) := by
      intro j
      rw [show page + 1 + j = page + Nat.succ j by omega]
    calc (acc ++ parse_model_names_from_page cards) ++
          ((List.range k).map
            (fun j => parse_model_names_from_page ((fetch code (page + 1 + j)).toOption.getD []))).flatten
        = acc ++ (parse_model_names_from_page cards ++
          ((List.range k).map
            (fun j => parse_model_names_from_page ((fetch code (page + Nat.succ j)).toOption.getD []))).flatten) := by
          rw [List.append_assoc]
          have hmap :
              List.map
                (fun j => parse_model_names_from_page ((fetch code (page + 1 + j)).toOption.getD []))
                (List.range k) =
              List.map
                (fun j => parse_model_names_from_page ((fetch code (page + Nat.succ j)).toOption.getD []))
                (List.range k) :=
            List.map_congr_left (fun j _ => hfun j)
          rw [hmap]
      _ = acc ++ ((List.range (k + 1)).map
            (fun j => parse_model_names_from_page ((fetch code (page + j)).toOption.getD []))).flatten := by
          rw [List.range_succ_eq_map]
          simp only [List.map_cons, List.map_map, List.flatten_cons, Nat.add_zero]
          rw [hc]
          rfl

/-- A listing oracle under which the first page for code `zu` succeeds with
one model and every later fetch raises. -/
def c6fetch : String → Nat → PageResp := fun code p =>
  if code = "zu" ∧ p = 0 then .ok [[some "/modelA"]] else .error ()

/-- C6 counterexample: when the first page for `zu` yields `modelA` and the
second page's fetch fails, `get_model_names_for_language` returns
`["modelA"]` — not the empty sequence the claim states. -/
theorem c6_counterexample :
    c6fetch "zu" 1 = .error () ∧
    get_model_names_for_language c6fetch "zu" 2 = ["modelA"] ∧
    (["modelA"] : List String) ≠ [] := by
  refine ⟨by decide, by decide, by decide⟩

/-- C6 (amended): if pages before index `k` each fetch successfully and
parse to a non-empty batch, and the fetch of page `k` fails — or page `k`
succeeds but parses to zero identifiers — then the per-code listing halts
there, returning the identifiers accumulated from the earlier pages (so the
empty sequence exactly when the first page fails), and no page beyond `k`
is ever consulted (the result is unchanged under any oracle agreeing on
pages up to `k`). -/
theorem c6_listing_halts (fetch : String → Nat → PageResp) (code : String)
    (m k : Nat) (hk : k < m)
    (hgood : ∀ j, j < k → ∃ cards, fetch code j = .ok cards ∧
        parse_model_names_from_page cards ≠ [])
    (hbad : fetch code k = .error () ∨ ∃ cards, fetch code k = .ok cards ∧
        parse_model_names_from_page cards = []) :
    get_model_names_for_language fetch code m =
      ((List.range k).map
        (fun j => parse_model_names_from_page ((fetch code j).toOption.getD []))).flatten
    ∧ ∀ fetch' : String → Nat → PageResp,
        (∀ j, j ≤ k → fetch' code j = fetch code j) →
        get_model_names_for_language fetch' code m =
          get_model_names_for_language fetch code m := by
  have hmain : get_model_names_for_language fetch code m =
      ((List.range k).map
        (fun j => parse_model_names_from_page ((fetch code j).toOption.getD []))).flatten := by
    have := gmnlAux_halts fetch code k m 0 [] hk
      (fun j hj => by simpa using hgood j hj)
      (by simpa using hbad)
    simpa [get_model_names_for_language] using this
  refine ⟨hmain, fun fetch' hagree => ?_⟩
  have hmain' : get_model_names_for_language fetch' code m =
      ((List.range k).map
        (fun j => parse_model_names_from_page ((fetch' code j).toOption.getD []))).flatten := by
    have := gmnlAux_halts fetch' code k m 0 [] hk
      (fun j hj => by
        obtain ⟨cs, h1, h2⟩ := hgood j hj
        exact ⟨cs, by simpa [hagree j (le_of_lt hj)] using h1, h2⟩)
      (by
        rcases hbad with hb | ⟨cs, h1, h2⟩
        · exact .inl (by simpa [hagree k le_rfl] using hb)
        · exact .inr ⟨cs, by simpa [hagree k le_rfl] using h1, h2⟩)
    simpa [get_model_names_for_language] using this
  rw [hmain, hmain']
  congr 1
  exact List.map_congr_left (fun j hj => by
    rw [hagree j (le_of_lt (List.mem_range.1 hj))])

/-- C6 witness: the amended statement instantiated at the concrete oracle
of the counterexample, halting at page 1 with `["modelA"]` collected. -/
theorem c6_witness :
    get_model_names_for_language c6fetch "zu" 2 =
      ((List.range 1).map
        (fun j => parse_model_names_from_page ((c6fetch "zu" j).toOption.getD []))).flatten
    ∧ ∀ fetch' : String → Nat → PageResp,
        (∀ j, j ≤ 1 → fetch' "zu" j = c6fetch "zu" j) →
        get_model_names_for_language fetch' "zu" 2 =
          get_model_names_for_language c6fetch "zu" 2 :=
  c6_listing_halts c6fetch "zu" 2 1 (by decide)
    (fun j hj => by
      have hj0 : j = 0 := by omega
      subst hj0
      exact ⟨[[some "/modelA"]], by decide, by decide⟩)
    (.inl (by decide))

theorem alookup_append_of_none {α : Type} (d₁ d₂ : List (String × α))
    (k : String) (h : alookup d₁ k = none) :
    alookup (d₁ ++ d₂) k = alookup d₂ k := by
  induction d₁ with
  | nil => rfl
  | cons e es ih =>
    by_cases he : e.1 = k
    · simp [alookup, he] at h
    · simp only [alookup, he, if_neg, List.cons_append, ite_false] at h ⊢
      exact ih h

theorem alookup_append_of_some {α : Type} (d₁ d₂ : List (String × α))
    (k : String) (v : α) (h : alookup d₁ k = some v) :
    alookup (d₁ ++ d₂) k = some v := by
  induction d₁ with
  | nil => simp [alookup] at h
  | cons e es ih =>
    by_cases he : e.1 = k
    · simp only [alookup, he, ite_true] at h
      simp [alookup, he, h]
    · simp only [alookup, he, ite_false] at h
      simpa [alookup, he] using ih h

theorem alookup_snoc_self {α : Type} (d : List (String × α)) (n : String)
    (v : α) (h : alookup d n = none) :
    alookup (d ++ [(n, v)]) n = some v := by
  rw [alookup_append_of_none d _ n h]
  simp [alookup]

theorem alookup_isSome_append {α : Type} (d₁ d₂ : List (String × α))
    (k : String) (h : (alookup d₁ k).isSome) :
    (alookup (d₁ ++ d₂) k).isSome := by
  cases hl : alookup d₁ k with
  | none => rw [hl] at h; simp at h
  | some v => rw [alookup_append_of_some d₁ d₂ k v hl]; rfl

theorem get_model_stats_hit (net : Net) (cache : Cache) (n : String)
    (s : ModelStats) (h : alookup cache n = some s) :
    get_model_stats net cache n = ⟨s, cache, false⟩ := by
  unfold get_model_stats
  rw [h]

theorem get_model_stats_miss (net : Net) (cache : Cache) (n : String)
    (h : alookup cache n = none) :
    ∃ s, get_model_stats net cache n = ⟨s, cache ++ [(n, s)], true⟩ := by
  unfold get_model_stats
  rw [h]
  cases statsFetch net n with
  | ok s => exact ⟨s, rfl⟩
  | error e => exact ⟨failureStats n, rfl⟩

theorem get_model_stats_key_mono (net : Net) (cache : Cache) (n m : String)
    (h : (alookup cache m).isSome) :
    (alookup (get_model_stats net cache n).cache m).isSome := by
  cases hn : alookup cache n with
  | some s => rw [get_model_stats_hit net cache n s hn]; exact h
  | none =>
    obtain ⟨s, hs⟩ := get_model_stats_miss net cache n hn
    rw [hs]
    exact alookup_isSome_append cache _ m h

theorem get_model_stats_key_self (net : Net) (cache : Cache) (n : String) :
    (alookup (get_model_stats net cache n).cache n).isSome := by
  cases hn : alookup cache n with
  | some s => rw [get_model_stats_hit net cache n s hn, hn]; rfl
  | none =>
    obtain ⟨s, hs⟩ := get_model_stats_miss net cache n hn
    rw [hs]
    simp [alookup_snoc_self cache n s hn]

theorem runStats_count_zero (net : Net) (names : List String) :
    ∀ (cache : Cache) (n : String), (alookup cache n).isSome →
    countFetches (runStats net cache names).2 n = 0 := by
  induction names with
  | nil => intro cache n _; rfl
  | cons m ms ih =>
    intro cache n h
    unfold runStats countFetches
    rw [List.countP_cons]
    have hflag : (decide (m = n) && (get_model_stats net cache m).net) = true →
        False := by
      intro hand
      rw [Bool.and_eq_true, decide_eq_true_iff] at hand
      obtain ⟨rfl, hnet⟩ := hand
      cases hm : alookup cache m with
      | some s => rw [get_model_stats_hit net cache m s hm] at hnet; simp at hnet
      | none => rw [hm] at h; simp at h
    have := ih (get_model_stats net cache m).cache n
      (get_model_stats_key_mono net cache m n h)
    unfold countFetches at this
    rw [this]
    cases hflag' : (decide (m = n) && (get_model_stats net cache m).net) with
    | true => exact absurd hflag' hflag
    | false => simp

theorem runStats_count_le_one (net : Net) (names : List String) :
    ∀ (cache : Cache) (n : String),
    countFetches (runStats net cache names).2 n ≤ 1 := by
  induction names with
  | nil => intro cache n; exact Nat.zero_le 1
  | cons m ms ih =>
    intro cache n
    unfold runStats countFetches
    rw [List.countP_cons]
    by_cases hmn : (decide (m = n) && (get_model_stats net cache m).net) = true
    · rw [Bool.and_eq_true, decide_eq_true_iff] at hmn
      obtain ⟨rfl, _⟩ := hmn
      have h0 := runStats_count_zero net ms (get_model_stats net cache m).cache m
        (get_model_stats_key_self net cache m)
      unfold countFetches at h0
      rw [h0]
      split <;> simp
    · rw [Bool.not_eq_true] at hmn
      rw [hmn]
      simpa using ih (get_model_stats net cache m).cache n

/-- C2: for every model identifier, at most one network stats lookup is
performed per run — over any sequence of `get_model_stats` calls starting
from the empty cache, the identifier's network events number at most one —
and any call finding the identifier in the cache returns exactly the stored
record (failure placeholders included), leaves the cache unchanged, and
performs no network activity. -/
theorem c2_stats_at_most_once (net : Net) (names : List String) (n : String) :
    countFetches (runStats net [] names).2 n ≤ 1 ∧
    ∀ (cache : Cache) (s : ModelStats), alookup cache n = some s →
      get_model_stats net cache n = ⟨s, cache, false⟩ :=
  ⟨runStats_count_le_one net names [] n,
   fun cache s h => get_model_stats_hit net cache n s h⟩

/-- An oracle whose metadata GETs always raise. -/
def c2net : Net where
  page := fun _ _ _ => .error ()
  dl := fun _ => .error ()
  likes := fun _ => .error ()

/-- C2 witness: two calls for `modelA` from the empty cache perform one
network lookup, and a call with `modelA` cached returns the stored
(failure-placeholder) record unchanged with no network activity. -/
theorem c2_witness :
    countFetches (runStats c2net [] ["modelA", "modelA"]).2 "modelA" ≤ 1 ∧
    get_model_stats c2net [("modelA", failureStats "modelA")] "modelA" =
      ⟨failureStats "modelA", [("modelA", failureStats "modelA")], false⟩ :=
  ⟨(c2_stats_at_most_once c2net ["modelA", "modelA"] "modelA").1,
   (c2_stats_at_most_once c2net ["modelA", "modelA"] "modelA").2
     [("modelA", failureStats "modelA")] (failureStats "modelA") (by decide)⟩

/-- C10: when the downloads metadata call comes back with a non-success
status (without raising) and the likes call succeeds with status 200 and a
likes value, `get_model_stats` on an uncached identifier builds, caches and
returns a record whose downloads fields are zero but whose likes field is
the fetched value — not an all-zero record. -/
theorem c10_partial_zero (net : Net) (cache : Cache) (n : String)
    (st : Nat) (pay : Except Unit DlData) (lv : Nat)
    (hmiss : alookup cache n = none)
    (hdl : net.dl n = .ok (st, pay)) (hst : st ≠ 200)
    (hlk : net.likes n = .ok (200, .ok ⟨some lv⟩)) :
    get_model_stats net cache n =
      ⟨{ name := n, url := "https://huggingface.co/" ++ n,
         downloads := 0, downloads_all_time := 0, likes := lv },
       cache ++
         [(n,
           { name := n, url := "https://huggingface.co/" ++ n,
             downloads := 0, downloads_all_time := 0, likes := lv })],
       true⟩ := by
  have hsf : statsFetch net n = .ok
      { name := n, url := "https://huggingface.co/" ++ n,
        downloads := 0, downloads_all_time := 0, likes := lv } := by
    unfold statsFetch
    rw [hdl]
    simp [bind, Except.bind, hst, hlk]
  unfold get_model_stats
  rw [hmiss, hsf]

/-- An oracle where the downloads call returns status 500 (no exception)
while the likes call succeeds with `likes = 5`. -/
def c10net : Net where
  page := fun _ _ _ => .error ()
  dl := fun _ => .ok (500, .error ())
  likes := fun _ => .ok (200, .ok ⟨some 5⟩)

/-- C10 witness: the concrete instance of the claim, with `likes = 5`
preserved and the downloads fields zeroed. -/
theorem c10_witness :
    get_model_stats c10net [] "modelA" =
      ⟨{ name := "modelA", url := "https://huggingface.co/" ++ "modelA",
         downloads := 0, downloads_all_time := 0, likes := 5 },
       [] ++
         [("modelA",
           { name := "modelA", url := "https://huggingface.co/" ++ "modelA",
             downloads := 0, downloads_all_time := 0, likes := 5 })],
       true⟩ :=
  c10_partial_zero c10net [] "modelA" 500 (.error ()) 5 rfl rfl (by decide) rfl

/-- An oracle realising C3's counterexample: the downloads metadata call
"fails" with a non-success status (500), the likes call succeeds with
`likes = 5`. -/
def c3net : Net where
  page := fun _ _ _ => .error ()
  dl := fun _ => .ok (500, .error ())
  likes := fun _ => .ok (200, .ok ⟨some 5⟩)

/-- C3 counterexample: with the downloads call failing by non-success
status and the likes call succeeding with `likes = 5`, the record built,
cached and returned for an uncached identifier has `likes = 5` — it is not
the all-zero record the claim asserts for any failing metadata call. -/
theorem c3_counterexample :
    c3net.dl "modelA" = .ok (500, .error ()) ∧
    (get_model_stats c3net [] "modelA").stats =
      { name := "modelA", url := "https://huggingface.co/modelA",
        downloads := 0, downloads_all_time := 0, likes := 5 } ∧
    (get_model_stats c3net [] "modelA").stats ≠ failureStats "modelA" := by
  refine ⟨rfl, by decide, by decide⟩

/-- C3 (amended): for an uncached identifier, if either metadata call
raises an exception (network error, or malformed payload on a 200
response), `get_model_stats` builds the record whose downloads,
all-time downloads and likes are all zero, stores it in the cache, and
returns it; a subsequent call for the identifier returns the stored
placeholder with no network activity, so the failed fetch is never retried
within the run.  (A non-success status that does not raise instead zeroes
only that call's fields — see the counterexample.) -/
theorem c3_exception_zero_record (net : Net) (cache : Cache) (n : String)
    (hmiss : alookup cache n = none)
    (hfail : statsFetch net n = .error ()) :
    get_model_stats net cache n =
      ⟨failureStats n, cache ++ [(n, failureStats n)], true⟩ ∧
    get_model_stats net (cache ++ [(n, failureStats n)]) n =
      ⟨failureStats n, cache ++ [(n, failureStats n)], false⟩ := by
  constructor
  · unfold get_model_stats
    rw [hmiss, hfail]
  · exact get_model_stats_hit net _ n _ (alookup_snoc_self cache n _ hmiss)

/-- C3 witness: the amended statement instantiated at an oracle whose
downloads GET raises. -/
theorem c3_witness :
    get_model_stats c2net [] "modelB" =
      ⟨failureStats "modelB", [] ++ [("modelB", failureStats "modelB")], true⟩ ∧
    get_model_stats c2net ([] ++ [("modelB", failureStats "modelB")]) "modelB" =
      ⟨failureStats "modelB", [] ++ [("modelB", failureStats "modelB")], false⟩ :=
  c3_exception_zero_record c2net [] "modelB" rfl rfl

theorem mem_setUpdate (xs : List String) :
    ∀ (s : List String) (n : String), n ∈ setUpdate s xs ↔ n ∈ s ∨ n ∈ xs := by
  induction xs with
  | nil => intro s n; simp [setUpdate]
  | cons x xs ih =>
    intro s n
    have hstep : setUpdate s (x :: xs) =
        setUpdate (if x ∈ s then s else s ++ [x]) xs := rfl
    rw [hstep, ih]
    by_cases hx : x ∈ s
    · simp only [hx, ite_true, List.mem_cons]
      constructor
      · rintro (h | h)
        · exact .inl h
        · exact .inr (.inr h)
      · rintro (h | rfl | h)
        · exact .inl h
        · exact .inl hx
        · exact .inr h
    · simp only [hx, ite_false, List.mem_append, List.mem_singleton, List.mem_cons]
      tauto

theorem nodup_setUpdate (xs : List String) :
    ∀ s : List String, s.Nodup → (setUpdate s xs).Nodup := by
  induction xs with
  | nil => intro s h; exact h
  | cons x xs ih =>
    intro s h
    have hstep : setUpdate s (x :: xs) =
        setUpdate (if x ∈ s then s else s ++ [x]) xs := rfl
    rw [hstep]
    apply ih
    by_cases hx : x ∈ s
    · simpa [hx] using h
    · simp only [hx, ite_false]
      refine List.Nodup.append h (List.nodup_singleton x) ?_
      intro a ha hb
      rw [List.mem_singleton] at hb
      subst hb
      exact hx ha

theorem mem_foldl_setUpdate (g : String → List String) (l : List String) :
    ∀ (s : List String) (n : String),
    n ∈ l.foldl (fun a c => setUpdate a (g c)) s ↔ n ∈ s ∨ ∃ c ∈ l, n ∈ g c := by
  induction l with
  | nil => intro s n; simp
  | cons c cs ih =>
    intro s n
    rw [List.foldl_cons, ih, mem_setUpdate]
    constructor
    · rintro ((h | h) | ⟨c', hc', h⟩)
      · exact .inl h
      · exact .inr ⟨c, List.mem_cons_self c cs, h⟩
      · exact .inr ⟨c', List.mem_cons_of_mem c hc', h⟩
    · rintro (h | ⟨c', hc', h⟩)
      · exact .inl (.inl h)
      · rcases List.mem_cons.1 hc' with rfl | hc''
        · exact .inl (.inr h)
        · exact .inr ⟨c', hc'', h⟩

theorem nodup_foldl_setUpdate (g : String → List String) (l : List String) :
    ∀ s : List String, s.Nodup → (l.foldl (fun a c => setUpdate a (g c)) s).Nodup := by
  induction l with
  | nil => intro s h; exact h
  | cons c cs ih =>
    intro s h
    rw [List.foldl_cons]
    exact ih _ (nodup_setUpdate _ s h)

theorem mem_languageModels (fetch : String → Nat → PageResp)
    (codes : List String) (n : String) :
    n ∈ languageModels fetch codes ↔
      ∃ c ∈ codes, n ∈ get_model_names_for_language fetch c 2 := by
  unfold languageModels
  rw [mem_foldl_setUpdate]
  simp

theorem nodup_languageModels (fetch : String → Nat → PageResp)
    (codes : List String) : (languageModels fetch codes).Nodup :=
  nodup_foldl_setUpdate _ codes [] List.nodup_nil

theorem mem_allUniqueModels (net : Net) (n : String) :
    n ∈ allUniqueModels net ↔
      ∃ p ∈ LANGUAGES, ∃ c ∈ p.2,
        n ∈ get_model_names_for_language (net.page false) c 2 := by
  unfold allUniqueModels
  have main : ∀ (l : List (String × List String)) (s : List String),
      n ∈ l.foldl
        (fun acc p => p.2.foldl
          (fun a c => setUpdate a (get_model_names_for_language (net.page false) c 2)) acc) s ↔
      n ∈ s ∨ ∃ p ∈ l, ∃ c ∈ p.2, n ∈ get_model_names_for_language (net.page false) c 2 := by
    intro l
    induction l with
    | nil => intro s; simp
    | cons p ps ih =>
      intro s
      rw [List.foldl_cons, ih, mem_foldl_setUpdate]
      constructor
      · rintro ((h | ⟨c, hc, h⟩) | ⟨p', hp', hc⟩)
        · exact .inl h
        · exact .inr ⟨p, List.mem_cons_self p ps, c, hc, h⟩
        · exact .inr ⟨p', List.mem_cons_of_mem p hp', hc⟩
      · rintro (h | ⟨p', hp', hc⟩)
        · exact .inl (.inl h)
        · rcases List.mem_cons.1 hp' with rfl | hp''
          · exact .inl (.inr hc)
          · exact .inr ⟨p', hp'', hc⟩
  rw [main]
  simp

theorem alookup_eq_none_iff {α : Type} (d : List (String × α)) (n : String) :
    alookup d n = none ↔ n ∉ d.map Prod.fst := by
  induction d with
  | nil => simp [alookup]
  | cons e es ih =>
    by_cases he : e.1 = n
    · simp [alookup, he]
    · simp only [alookup, he, ite_false, List.map_cons, List.mem_cons]
      rw [ih]
      constructor
      · rintro h (h' | h')
        · exact he h'.symm
        · exact h h'
      · intro h h'
        exact h (.inr h')

theorem alookup_snoc_ne {α : Type} (d : List (String × α)) (k n : String)
    (v : α) (h : n ≠ k) : alookup (d ++ [(k, v)]) n = alookup d n := by
  cases hd : alookup d n with
  | some w => exact alookup_append_of_some d _ n w hd
  | none =>
    rw [alookup_append_of_none d _ n hd]
    simp only [alookup]
    rw [if_neg (fun hk : k = n => h hk.symm)]

theorem statsFetch_name (net : Net) (n : String) (s : ModelStats)
    (h : statsFetch net n = .ok s) : s.name = n := by
  unfold statsFetch at h
  simp only [bind, Except.bind] at h
  repeat' split at h
  all_goals try exact Except.noConfusion h
  all_goals injection h with h'
  all_goals rw [← h']

theorem get_model_stats_miss_ok (net : Net) (cache : Cache) (n : String)
    (s : ModelStats) (hn : alookup cache n = none)
    (hsf : statsFetch net n = .ok s) :
    get_model_stats net cache n = ⟨s, cache ++ [(n, s)], true⟩ := by
  unfold get_model_stats
  rw [hn, hsf]

theorem get_model_stats_miss_err (net : Net) (cache : Cache) (n : String)
    (hn : alookup cache n = none) (hsf : statsFetch net n = .error ()) :
    get_model_stats net cache n =
      ⟨failureStats n, cache ++ [(n, failureStats n)], true⟩ := by
  unfold get_model_stats
  rw [hn, hsf]

/-- Every record stored by `get_model_stats` is keyed by its own name. -/
def CacheNamed (cache : Cache) : Prop :=
  ∀ k s, alookup cache k = some s → s.name = k

theorem alookup_snoc_inv {α : Type} (d : List (String × α)) (k n : String)
    (v w : α) (h : alookup (d ++ [(k, v)]) n = some w) :
    alookup d n = some w ∨ (n = k ∧ w = v) := by
  cases hd : alookup d n with
  | some u =>
    rw [alookup_append_of_some d _ n u hd] at h
    exact .inl h
  | none =>
    rw [alookup_append_of_none d _ n hd] at h
    by_cases hk : k = n
    · subst hk
      simp only [alookup, ite_true] at h
      exact .inr ⟨rfl, (Option.some.inj h).symm⟩
    · simp [alookup, hk] at h

theorem cacheNamed_get_model_stats (net : Net) (cache : Cache) (n : String)
    (h : CacheNamed cache) : CacheNamed (get_model_stats net cache n).cache := by
  cases hn : alookup cache n with
  | some s => rw [get_model_stats_hit net cache n s hn]; exact h
  | none =>
    cases hsf : statsFetch net n with
    | ok s =>
      rw [get_model_stats_miss_ok net cache n s hn hsf]
      intro k t hkt
      rcases alookup_snoc_inv cache n k s t hkt with h1 | ⟨hkn, hts⟩
      · exact h k t h1
      · subst hkn
        rw [hts]
        exact statsFetch_name net k s hsf
    | error e =>
      rw [get_model_stats_miss_err net cache n hn hsf]
      intro k t hkt
      rcases alookup_snoc_inv cache n k (failureStats n) t hkt with h1 | ⟨hkn, hts⟩
      · exact h k t h1
      · subst hkn
        rw [hts]
        rfl

theorem cacheNamed_statsPass (net : Net) (xs : List String) :
    CacheNamed (statsPass net xs) := by
  unfold statsPass
  have main : ∀ (l : List String) (cache : Cache), CacheNamed cache →
      CacheNamed (l.foldl (fun c n => (get_model_stats net c n).cache) cache) := by
    intro l
    induction l with
    | nil => intro cache h; exact h
    | cons n ns ih =>
      intro cache h
      rw [List.foldl_cons]
      exact ih _ (cacheNamed_get_model_stats net cache n h)
  exact main xs [] (fun k s h => by simp [alookup] at h)

theorem statsPass_hasKey (net : Net) (xs : List String) :
    ∀ n ∈ xs, (alookup (statsPass net xs) n).isSome := by
  unfold statsPass
  have main : ∀ (l : List String) (cache : Cache) (n : String),
      (alookup cache n).isSome ∨ n ∈ l →
      (alookup (l.foldl (fun c m => (get_model_stats net c m).cache) cache) n).isSome := by
    intro l
    induction l with
    | nil =>
      intro cache n h
      rcases h with h | h
      · exact h
      · simp at h
    | cons m ms ih =>
      intro cache n h
      rw [List.foldl_cons]
      rcases h with h | h
      · exact ih _ n (.inl (get_model_stats_key_mono net cache m n h))
      · rcases List.mem_cons.1 h with rfl | h'
        · exact ih _ n (.inl (get_model_stats_key_self net cache n))
        · exact ih _ n (.inr h')
  intro n hn
  exact main xs [] n (.inr hn)

theorem lookupAll_forall₂ (cache : Cache) :
    ∀ (xs : List String) (ms : List ModelStats),
    lookupAll cache xs = .ok ms →
    List.Forall₂ (fun x s => alookup cache x = some s) xs ms := by
  intro xs
  induction xs with
  | nil =>
    intro ms h
    simp only [lookupAll] at h
    rw [← Except.ok.inj h]
    exact List.Forall₂.nil
  | cons x xs ih =>
    intro ms h
    simp only [lookupAll] at h
    cases hx : alookup cache x with
    | none => rw [hx] at h; exact absurd h (by simp)
    | some s =>
      rw [hx] at h
      cases hrest : lookupAll cache xs with
      | error e => rw [hrest] at h; exact absurd h (by simp)
      | ok rest =>
        rw [hrest] at h
        rw [← Except.ok.inj h]
        exact List.Forall₂.cons hx (ih rest hrest)

theorem forall₂_names (cache : Cache) (hnamed : CacheNamed cache)
    {xs : List String} {ms : List ModelStats}
    (hf : List.Forall₂ (fun x s => alookup cache x = some s) xs ms) :
    ms.map ModelStats.name = xs := by
  induction hf with
  | nil => rfl
  | cons hx hf ih =>
    rename_i x s xs' ms'
    simp only [List.map_cons]
    rw [ih, hnamed x s hx]

theorem lookupAll_names (cache : Cache) (xs : List String)
    (ms : List ModelStats) (hnamed : CacheNamed cache)
    (h : lookupAll cache xs = .ok ms) : ms.map ModelStats.name = xs :=
  forall₂_names cache hnamed (lookupAll_forall₂ cache xs ms h)

theorem lookupAll_total (cache : Cache) :
    ∀ xs : List String, (∀ x ∈ xs, (alookup cache x).isSome) →
    ∃ ms, lookupAll cache xs = .ok ms := by
  intro xs
  induction xs with
  | nil => intro _; exact ⟨[], rfl⟩
  | cons x xs ih =>
    intro h
    obtain ⟨ms, hms⟩ := ih (fun y hy => h y (List.mem_cons_of_mem x hy))
    have hx := h x (List.mem_cons_self x xs)
    cases hx' : alookup cache x with
    | none => rw [hx'] at hx; simp at hx
    | some s =>
      refine ⟨s :: ms, ?_⟩
      simp only [lookupAll]
      rw [hx', hms]

theorem organizePass_forall₂ (net : Net) (cache : Cache) :
    ∀ (l : List (String × List String)) (results : List (String × List ModelStats)),
    organizePass net cache l = .ok results →
    List.Forall₂
      (fun p q => q.1 = p.1 ∧
        lookupAll cache (languageModels (net.page true) p.2) = .ok q.2)
      l results := by
  intro l
  induction l with
  | nil =>
    intro results h
    simp only [organizePass] at h
    rw [← Except.ok.inj h]
    exact List.Forall₂.nil
  | cons p ps ih =>
    intro results h
    simp only [organizePass] at h
    cases hms : lookupAll cache (languageModels (net.page true) p.2) with
    | error e => rw [hms] at h; exact absurd h (by simp)
    | ok ms =>
      rw [hms] at h
      cases hrest : organizePass net cache ps with
      | error e => rw [hrest] at h; exact absurd h (by simp)
      | ok rest =>
        rw [hrest] at h
        rw [← Except.ok.inj h]
        exact List.Forall₂.cons ⟨rfl, hms⟩ (ih rest hrest)

theorem organizePass_total (net : Net) (cache : Cache) :
    ∀ l : List (String × List String),
    (∀ p ∈ l, ∀ n ∈ languageModels (net.page true) p.2, (alookup cache n).isSome) →
    ∃ results, organizePass net cache l = .ok results := by
  intro l
  induction l with
  | nil => intro _; exact ⟨[], rfl⟩
  | cons p ps ih =>
    intro h
    obtain ⟨ms, hms⟩ := lookupAll_total cache _
      (fun n hn => h p (List.mem_cons_self p ps) n hn)
    obtain ⟨rest, hrest⟩ := ih (fun q hq n hn => h q (List.mem_cons_of_mem p hq) n hn)
    refine ⟨(p.1, ms) :: rest, ?_⟩
    simp only [organizePass]
    rw [hms, hrest]

theorem forall₂_keys {α β : Type}
    {R : (String × α) → (String × β) → Prop} :
    ∀ {l : List (String × α)} {l' : List (String × β)},
    List.Forall₂ (fun p q => q.1 = p.1 ∧ R p q) l l' →
    l'.map Prod.fst = l.map Prod.fst := by
  intro l l' hf
  induction hf with
  | nil => rfl
  | cons hR hf ih =>
    simp only [List.map_cons]
    rw [ih, hR.1]

theorem forall₂_alookup {α β : Type} {R : (String × α) → (String × β) → Prop} :
    ∀ {l : List (String × α)} {l' : List (String × β)},
    List.Forall₂ R l l' → ∀ {L : String} {v : β},
    alookup l' L = some v → ∃ p ∈ l, R p (L, v) := by
  intro l l' hf
  induction hf with
  | nil => intro L v h; simp [alookup] at h
  | cons hR hf ih =>
    rename_i p q l₁ l₂
    intro L v h
    simp only [alookup] at h
    by_cases hq : q.1 = L
    · rw [if_pos hq] at h
      have hv : v = q.2 := (Option.some.inj h).symm
      have hq' : (L, v) = q := by
        obtain ⟨q1, q2⟩ := q
        simp only at hq hv
        rw [hq, hv]
      refine ⟨p, List.mem_cons_self p l₁, ?_⟩
      rw [hq']
      exact hR
    · rw [if_neg hq] at h
      obtain ⟨p', hp', hR'⟩ := ih h
      exact ⟨p', List.mem_cons_of_mem p hp', hR'⟩

theorem forall₂_alookup_of_mem {α β : Type}
    {R : (String × α) → (String × β) → Prop} :
    ∀ {l : List (String × α)} {l' : List (String × β)},
    List.Forall₂ (fun p q => q.1 = p.1 ∧ R p q) l l' →
    (l.map Prod.fst).Nodup → ∀ {L : String} {a : α}, (L, a) ∈ l →
    ∃ b, alookup l' L = some b ∧ R (L, a) (L, b) := by
  intro l l' hf
  induction hf with
  | nil => intro _ L a h; simp at h
  | cons hR hf ih =>
    rename_i p q l₁ l₂
    intro hnodup L a hmem
    rcases List.mem_cons.1 hmem with rfl | hmem'
    · refine ⟨q.2, ?_, ?_⟩
      · simp only [alookup]
        rw [if_pos (by rw [hR.1])]
      · have hq' : (L, q.2) = q := by
          obtain ⟨q1, q2⟩ := q
          simp only at hR ⊢
          rw [hR.1]
        rw [hq']
        exact hR.2
    · have hne : q.1 ≠ L := by
        rw [hR.1]
        intro hc
        rw [List.map_cons, List.nodup_cons] at hnodup
        exact hnodup.1 (hc ▸ List.mem_map_of_mem Prod.fst hmem')
      simp only [alookup]
      rw [if_neg hne]
      exact ih (by
        rw [List.map_cons, List.nodup_cons] at hnodup
        exact hnodup.2) hmem'

theorem scrape_forall₂ (net : Net)
    (results : List (String × List ModelStats))
    (h : scrape_all_languages net = .ok results) :
    List.Forall₂
      (fun p q => q.1 = p.1 ∧
        lookupAll (statsPass net (allUniqueModels net))
          (languageModels (net.page true) p.2) = .ok q.2)
      LANGUAGES results :=
  organizePass_forall₂ net _ LANGUAGES results h

theorem scrape_keys (net : Net) (results : List (String × List ModelStats))
    (h : scrape_all_languages net = .ok results) :
    results.map Prod.fst = LANGUAGES.map Prod.fst :=
  forall₂_keys (scrape_forall₂ net results h)

/-- Every language's list in a successful scrape is its organize-pass
listing union mapped through the cache, so its records are named by exactly
that identifier set. -/
theorem scrape_lookup_names (net : Net)
    (results : List (String × List ModelStats))
    (h : scrape_all_languages net = .ok results)
    (L : String) (models : List ModelStats)
    (halookup : alookup results L = some models) :
    ∃ codes, (L, codes) ∈ LANGUAGES ∧
      models.map ModelStats.name = languageModels (net.page true) codes := by
  obtain ⟨p, hp, hR⟩ := forall₂_alookup (scrape_forall₂ net results h) halookup
  refine ⟨p.2, ?_, ?_⟩
  · have : p = (L, p.2) := by
      obtain ⟨p1, p2⟩ := p
      simp only at hR ⊢
      rw [hR.1]
    rw [← this]
    exact hp
  · exact lookupAll_names _ _ _ (cacheNamed_statsPass net _) hR.2

theorem mem_addToSet (s : List String) (x y : String) :
    y ∈ addToSet s x ↔ y ∈ s ∨ y = x := by
  unfold addToSet
  by_cases hx : x ∈ s
  · simp only [hx, ite_true]
    constructor
    · exact fun h => .inl h
    · rintro (h | rfl)
      · exact h
      · exact hx
  · simp [hx]

theorem addToSet_idem (s : List String) (x : String) :
    addToSet (addToSet s x) x = addToSet s x := by
  unfold addToSet
  by_cases hx : x ∈ s
  · simp [hx]
  · simp [hx]

theorem addLang_lookup (d : List (String × ModelInfo)) (k lang n : String) :
    alookup (addLang d k lang) n =
      if n = k then
        (alookup d n).map
          (fun i => { i with supported_languages := addToSet i.supported_languages lang })
      else alookup d n := by
  induction d with
  | nil =>
    simp only [addLang, List.map_nil, alookup]
    split <;> rfl
  | cons e es ih =>
    simp only [addLang, List.map_cons]
    by_cases hek : e.1 = k
    · rw [if_pos hek]
      by_cases hn : e.1 = n
      · have hnk : n = k := by rw [← hn, hek]
        rw [if_pos hnk]
        simp [alookup, hn]
      · simp only [alookup, hn, ite_false]
        simpa [addLang] using ih
    · rw [if_neg hek]
      by_cases hn : e.1 = n
      · have hnk : ¬ n = k := by rw [← hn]; exact hek
        rw [if_neg hnk]
        simp [alookup, hn]
      · simp only [alookup, hn, ite_false]
        simpa [addLang] using ih

theorem addLang_keys (d : List (String × ModelInfo)) (k lang : String) :
    (addLang d k lang).map Prod.fst = d.map Prod.fst := by
  unfold addLang
  rw [List.map_map]
  apply List.map_congr_left
  intro e _
  by_cases h : e.1 = k <;> simp [h]

theorem langsOf_insertModel (d : List (String × ModelInfo)) (lang : String)
    (m : ModelStats) (n : String) :
    langsOf (insertModel d lang m) n =
      if n = m.name then addToSet (langsOf d n) lang else langsOf d n := by
  unfold insertModel
  by_cases hk : (alookup d m.name).isSome
  · rw [if_pos hk]
    unfold langsOf
    rw [addLang_lookup]
    by_cases hn : n = m.name
    · rw [if_pos hn, if_pos hn]
      cases hd : alookup d n with
      | none => rw [hn] at hd; rw [hd] at hk; simp at hk
      | some i => rfl
    · rw [if_neg hn, if_neg hn]
  · rw [if_neg hk]
    unfold langsOf
    rw [addLang_lookup]
    by_cases hn : n = m.name
    · rw [if_pos hn, if_pos hn]
      have hd : alookup d m.name = none := by
        cases hd' : alookup d m.name with
        | none => rfl
        | some i => rw [hd'] at hk; simp at hk
      rw [hn, alookup_snoc_self d m.name _ hd, hd]
      rfl
    · rw [if_neg hn, if_neg hn, alookup_snoc_ne d m.name n _ hn]

theorem hasKey_insertModel (d : List (String × ModelInfo)) (lang : String)
    (m : ModelStats) (n : String) :
    (alookup (insertModel d lang m) n).isSome ↔
      (alookup d n).isSome ∨ n = m.name := by
  unfold insertModel
  by_cases hk : (alookup d m.name).isSome
  · rw [if_pos hk]
    rw [addLang_lookup]
    by_cases hn : n = m.name
    · rw [if_pos hn]
      constructor
      · intro _; exact .inr hn
      · intro _
        rw [hn]
        simpa using hk
    · rw [if_neg hn]
      constructor
      · exact fun h => .inl h
      · rintro (h | h)
        · exact h
        · exact absurd h hn
  · rw [if_neg hk]
    rw [addLang_lookup]
    by_cases hn : n = m.name
    · rw [if_pos hn]
      have hd : alookup d m.name = none := by
        cases hd' : alookup d m.name with
        | none => rfl
        | some i => rw [hd'] at hk; simp at hk
      rw [hn, alookup_snoc_self d m.name _ hd]
      simp
    · rw [if_neg hn, alookup_snoc_ne d m.name n _ hn]
      constructor
      · exact fun h => .inl h
      · rintro (h | h)
        · exact h
        · exact absurd h hn

theorem insertModel_keys_nodup (d : List (String × ModelInfo)) (lang : String)
    (m : ModelStats) (h : (d.map Prod.fst).Nodup) :
    ((insertModel d lang m).map Prod.fst).Nodup := by
  unfold insertModel
  by_cases hk : (alookup d m.name).isSome
  · rw [if_pos hk, addLang_keys]
    exact h
  · rw [if_neg hk, addLang_keys]
    have hd : alookup d m.name = none := by
      cases hd' : alookup d m.name with
      | none => rfl
      | some i => rw [hd'] at hk; simp at hk
    have hnotin : m.name ∉ d.map Prod.fst := (alookup_eq_none_iff d m.name).1 hd
    rw [List.map_append]
    refine List.Nodup.append h (by simp) ?_
    intro a ha hb
    simp only [List.map_cons, List.map_nil, List.mem_singleton] at hb
    subst hb
    exact hnotin ha

theorem langsOf_processLang (lang : String) :
    ∀ (ms : List ModelStats) (d : List (String × ModelInfo)) (n : String),
    langsOf (processLang d lang ms) n =
      if n ∈ ms.map ModelStats.name then addToSet (langsOf d n) lang
      else langsOf d n := by
  intro ms
  induction ms with
  | nil => intro d n; simp [processLang]
  | cons m ms ih =>
    intro d n
    have hstep : processLang d lang (m :: ms) =
        processLang (insertModel d lang m) lang ms := rfl
    rw [hstep, ih, langsOf_insertModel]
    by_cases hn : n = m.name
    · by_cases hmem : n ∈ ms.map ModelStats.name
      · rw [if_pos hmem, if_pos hn, addToSet_idem,
          if_pos (by rw [List.map_cons]; exact List.mem_cons.2 (.inl hn))]
      · rw [if_neg hmem, if_pos hn,
          if_pos (by rw [List.map_cons]; exact List.mem_cons.2 (.inl hn))]
    · by_cases hmem : n ∈ ms.map ModelStats.name
      · rw [if_pos hmem, if_neg hn,
          if_pos (by rw [List.map_cons]; exact List.mem_cons.2 (.inr hmem))]
      · rw [if_neg hmem, if_neg hn,
          if_neg (by
            simp only [List.map_cons, List.mem_cons]
            rintro (h | h)
            · exact hn h
            · exact hmem h)]

theorem hasKey_processLang (lang : String) :
    ∀ (ms : List ModelStats) (d : List (String × ModelInfo)) (n : String),
    (alookup (processLang d lang ms) n).isSome ↔
      (alookup d n).isSome ∨ n ∈ ms.map ModelStats.name := by
  intro ms
  induction ms with
  | nil => intro d n; simp [processLang]
  | cons m ms ih =>
    intro d n
    have hstep : processLang d lang (m :: ms) =
        processLang (insertModel d lang m) lang ms := rfl
    rw [hstep, ih, hasKey_insertModel]
    simp only [List.map_cons, List.mem_cons]
    tauto

theorem processLang_keys_nodup (lang : String) :
    ∀ (ms : List ModelStats) (d : List (String × ModelInfo)),
    (d.map Prod.fst).Nodup → ((processLang d lang ms).map Prod.fst).Nodup := by
  intro ms
  induction ms with
  | nil => intro d h; exact h
  | cons m ms ih =>
    intro d h
    exact ih _ (insertModel_keys_nodup d lang m h)

theorem mem_langsOf_build :
    ∀ (rs : List (String × List ModelStats)) (d : List (String × ModelInfo))
      (n L : String),
    L ∈ langsOf (rs.foldl (fun d p => processLang d p.1 p.2) d) n ↔
      L ∈ langsOf d n ∨ ∃ ms, (L, ms) ∈ rs ∧ n ∈ ms.map ModelStats.name := by
  intro rs
  induction rs with
  | nil => intro d n L; simp
  | cons p ps ih =>
    intro d n L
    rw [List.foldl_cons, ih, langsOf_processLang]
    constructor
    · rintro (h | h)
      · by_cases hmem : n ∈ p.2.map ModelStats.name
        · rw [if_pos hmem, mem_addToSet] at h
          rcases h with h | rfl
          · exact .inl h
          · exact .inr ⟨p.2, List.mem_cons.2 (.inl Prod.mk.eta), hmem⟩
        · rw [if_neg hmem] at h
          exact .inl h
      · obtain ⟨ms, hms, hn⟩ := h
        exact .inr ⟨ms, List.mem_cons_of_mem p hms, hn⟩
    · rintro (h | ⟨ms, hms, hn⟩)
      · left
        by_cases hmem : n ∈ p.2.map ModelStats.name
        · rw [if_pos hmem, mem_addToSet]
          exact .inl h
        · rw [if_neg hmem]
          exact h
      · rcases List.mem_cons.1 hms with heq | hms'
        · left
          have hL : L = p.1 := by rw [← heq]
          have hms2 : ms = p.2 := by rw [← heq]
          rw [hms2] at hn
          rw [if_pos hn, mem_addToSet]
          exact .inr hL
        · exact .inr ⟨ms, hms', hn⟩

theorem hasKey_build :
    ∀ (rs : List (String × List ModelStats)) (d : List (String × ModelInfo))
      (n : String),
    (alookup (rs.foldl (fun d p => processLang d p.1 p.2) d) n).isSome ↔
      (alookup d n).isSome ∨ ∃ p ∈ rs, n ∈ p.2.map ModelStats.name := by
  intro rs
  induction rs with
  | nil => intro d n; simp
  | cons p ps ih =>
    intro d n
    rw [List.foldl_cons, ih, hasKey_processLang]
    constructor
    · rintro ((h | h) | ⟨q, hq, hn⟩)
      · exact .inl h
      · exact .inr ⟨p, List.mem_cons_self p ps, h⟩
      · exact .inr ⟨q, List.mem_cons_of_mem p hq, hn⟩
    · rintro (h | ⟨q, hq, hn⟩)
      · exact .inl (.inl h)
      · rcases List.mem_cons.1 hq with rfl | hq'
        · exact .inl (.inr hn)
        · exact .inr ⟨q, hq', hn⟩

theorem build_keys_nodup (results : List (String × List ModelStats)) :
    ((buildAllModels results).map Prod.fst).Nodup := by
  unfold buildAllModels
  have main : ∀ (rs : List (String × List ModelStats)) (d : List (String × ModelInfo)),
      (d.map Prod.fst).Nodup →
      ((rs.foldl (fun d p => processLang d p.1 p.2) d).map Prod.fst).Nodup := by
    intro rs
    induction rs with
    | nil => intro d h; exact h
    | cons p ps ih =>
      intro d h
      rw [List.foldl_cons]
      exact ih _ (processLang_keys_nodup p.1 p.2 d h)
  exact main results [] (by simp)

theorem alookup_mem_iff {α : Type} :
    ∀ (d : List (String × α)), (d.map Prod.fst).Nodup →
    ∀ (n : String) (v : α), alookup d n = some v ↔ (n, v) ∈ d := by
  intro d
  induction d with
  | nil => intro _ n v; simp [alookup]
  | cons e es ih =>
    intro hnodup n v
    rw [List.map_cons, List.nodup_cons] at hnodup
    by_cases he : e.1 = n
    · simp only [alookup, he, ite_true, List.mem_cons]
      constructor
      · intro h
        left
        obtain ⟨e1, e2⟩ := e
        simp only at he
        have hv : e2 = v := Option.some.inj h
        rw [he, hv]
      · rintro (h | h)
        · rw [← h]
        · exact absurd (he ▸ List.mem_map_of_mem Prod.fst h) hnodup.1
    · simp only [alookup, he, ite_false, List.mem_cons]
      rw [ih hnodup.2 n v]
      constructor
      · exact fun h => .inr h
      · rintro (h | h)
        · exact absurd (congrArg Prod.fst h.symm) he
        · exact h

theorem alookup_pairs_map (f : String → String) :
    ∀ (ps : List (String × List String)) (L : String), L ∈ ps.map Prod.fst →
    alookup (ps.map (fun p => (p.1, f p.1))) L = some (f L) := by
  intro ps
  induction ps with
  | nil => intro L h; simp at h
  | cons p ps ih =>
    intro L h
    by_cases hp : p.1 = L
    · simp only [List.map_cons, alookup, hp, ite_true]
    · simp only [List.map_cons, alookup, hp, ite_false]
      rw [List.map_cons] at h
      rcases List.mem_cons.1 h with h' | h'
      · exact absurd h'.symm hp
      · exact ih L h'

theorem countYes_matrixRows (results : List (String × List ModelStats))
    (L : String) (hL : L ∈ LANGUAGES.map Prod.fst) :
    countYes (matrixRows results) L =
      (buildAllModels results).countP
        (fun e => decide (L ∈ e.2.supported_languages)) := by
  unfold countYes matrixRows
  rw [List.countP_map]
  apply List.countP_congr
  intro e _
  have hcells := alookup_pairs_map
    (fun k => if k ∈ e.2.supported_languages then "Yes" else "No") LANGUAGES L hL
  by_cases hmem : L ∈ e.2.supported_languages
  · simp [Function.comp, hcells, hmem]
  · simp [Function.comp, hcells, hmem]

theorem countP_build_eq_length (results : List (String × List ModelStats))
    (L : String) (models : List ModelStats)
    (hkeys : (results.map Prod.fst).Nodup)
    (halookup : alookup results L = some models)
    (hnodup : (models.map ModelStats.name).Nodup)
    (hhaskey : ∀ n ∈ models.map ModelStats.name,
      (alookup (buildAllModels results) n).isSome) :
    (buildAllModels results).countP
      (fun e => decide (L ∈ e.2.supported_languages)) = models.length := by
  have hdnodup := build_keys_nodup results
  have hlangs : ∀ n : String,
      L ∈ langsOf (buildAllModels results) n ↔ n ∈ models.map ModelStats.name := by
    intro n
    unfold buildAllModels
    rw [mem_langsOf_build results [] n L]
    constructor
    · rintro (h | ⟨ms, hms, hn⟩)
      · simp [langsOf, alookup] at h
      · have : alookup results L = some ms := (alookup_mem_iff results hkeys L ms).2 hms
        rw [halookup] at this
        rw [Option.some.inj this]
        exact hn
    · intro hn
      exact .inr ⟨models, (alookup_mem_iff results hkeys L models).1 halookup, hn⟩
  have hks : ∀ n : String,
      n ∈ ((buildAllModels results).filter
        (fun e => decide (L ∈ e.2.supported_languages))).map Prod.fst ↔
      n ∈ models.map ModelStats.name := by
    intro n
    rw [List.mem_map]
    constructor
    · rintro ⟨e, he, rfl⟩
      rw [List.mem_filter] at he
      have hsome : alookup (buildAllModels results) e.1 = some e.2 :=
        (alookup_mem_iff _ hdnodup e.1 e.2).2 (by
          obtain ⟨e1, e2⟩ := e
          exact he.1)
      have hmem : L ∈ langsOf (buildAllModels results) e.1 := by
        unfold langsOf
        rw [hsome]
        simpa using he.2
      exact (hlangs e.1).1 hmem
    · intro hn
      have hsome := hhaskey n hn
      cases hinfo : alookup (buildAllModels results) n with
      | none => rw [hinfo] at hsome; simp at hsome
      | some info =>
        refine ⟨(n, info), ?_, rfl⟩
        rw [List.mem_filter]
        refine ⟨(alookup_mem_iff _ hdnodup n info).1 hinfo, ?_⟩
        have hmem := (hlangs n).2 hn
        unfold langsOf at hmem
        rw [hinfo] at hmem
        simpa using hmem
  have hksnodup : (((buildAllModels results).filter
      (fun e => decide (L ∈ e.2.supported_languages))).map Prod.fst).Nodup :=
    ((List.filter_sublist (buildAllModels results)).map Prod.fst).nodup hdnodup
  have hperm := (List.perm_ext_iff_of_nodup hksnodup hnodup).2 hks
  have hlen := hperm.length_eq
  rw [List.length_map, List.length_map] at hlen
  rw [List.countP_eq_length_filter, hlen]

/-- C1: for every language of a successful run, the number of `'Yes'` flags
in that language's matrix column equals the length of the language's result
list produced by the aggregator (its count of unique model identifiers). -/
theorem c1_yes_count (net : Net) (results : List (String × List ModelStats))
    (matrix : List Row) (L : String) (models : List ModelStats)
    (hscrape : scrape_all_languages net = .ok results)
    (hmatrix : create_language_matrix results = .ok matrix)
    (hlk : alookup results L = some models) :
    countYes matrix L = models.length := by
  have hkeys : results.map Prod.fst = LANGUAGES.map Prod.fst :=
    scrape_keys net results hscrape
  have hkeysnodup : (results.map Prod.fst).Nodup := by
    rw [hkeys]
    decide
  have hL : L ∈ LANGUAGES.map Prod.fst := by
    rw [← hkeys]
    by_contra hc
    rw [← alookup_eq_none_iff results L] at hc
    rw [hc] at hlk
    exact Option.noConfusion hlk
  obtain ⟨codes, hcodes, hnames⟩ :=
    scrape_lookup_names net results hscrape L models hlk
  have hnodup : (models.map ModelStats.name).Nodup := by
    rw [hnames]
    exact nodup_languageModels _ codes
  have hhaskey : ∀ n ∈ models.map ModelStats.name,
      (alookup (buildAllModels results) n).isSome := by
    intro n hn
    unfold buildAllModels
    rw [hasKey_build results [] n]
    exact .inr ⟨(L, models), (alookup_mem_iff results hkeysnodup L models).1 hlk, hn⟩
  have hmx : matrix = List.insertionSort rowLE (matrixRows results) := by
    unfold create_language_matrix at hmatrix
    by_cases hempty : (matrixRows results).isEmpty
    · rw [if_pos hempty] at hmatrix
      exact Except.noConfusion hmatrix
    · rw [if_neg hempty] at hmatrix
      exact (Except.ok.inj hmatrix).symm
  have hcount : countYes matrix L = countYes (matrixRows results) L := by
    unfold countYes
    rw [hmx]
    exact (List.perm_insertionSort rowLE (matrixRows results)).countP_eq _
  rw [hcount, countYes_matrixRows results L hL,
    countP_build_eq_length results L models hkeysnodup hlk hnodup hhaskey]

theorem mem_savedLanguageFiles (results : List (String × List ModelStats))
    (x : String × List ModelStats) :
    x ∈ savedLanguageFiles results ↔
      ∃ p ∈ results, ¬p.2.isEmpty ∧
        x = ("asr_models_" ++ pyLower p.1 ++ ".csv", p.2) := by
  unfold savedLanguageFiles
  have main : ∀ (l : List (String × List ModelStats))
      (acc : List (String × List ModelStats)),
      x ∈ l.foldl
        (fun acc p => if p.2.isEmpty then acc
          else acc ++ [("asr_models_" ++ pyLower p.1 ++ ".csv", p.2)]) acc ↔
      x ∈ acc ∨ ∃ p ∈ l, ¬p.2.isEmpty ∧
        x = ("asr_models_" ++ pyLower p.1 ++ ".csv", p.2) := by
    intro l
    induction l with
    | nil => intro acc; simp
    | cons p ps ih =>
      intro acc
      rw [List.foldl_cons, ih]
      by_cases hp : p.2.isEmpty
      · rw [if_pos hp]
        constructor
        · rintro (h | ⟨q, hq, hqe, hx⟩)
          · exact .inl h
          · exact .inr ⟨q, List.mem_cons_of_mem p hq, hqe, hx⟩
        · rintro (h | ⟨q, hq, hqe, hx⟩)
          · exact .inl h
          · rcases List.mem_cons.1 hq with rfl | hq'
            · exact absurd hp hqe
            · exact .inr ⟨q, hq', hqe, hx⟩
      · rw [if_neg hp]
        constructor
        · rintro (h | ⟨q, hq, hqe, hx⟩)
          · rcases List.mem_append.1 h with h' | h'
            · exact .inl h'
            · rw [List.mem_singleton] at h'
              exact .inr ⟨p, List.mem_cons_self p ps, hp, h'⟩
          · exact .inr ⟨q, List.mem_cons_of_mem p hq, hqe, hx⟩
        · rintro (h | ⟨q, hq, hqe, hx⟩)
          · exact .inl (List.mem_append_left _ h)
          · rcases List.mem_cons.1 hq with rfl | hq'
            · exact .inl (List.mem_append_right _ (by rw [hx]; exact List.mem_singleton_self _))
            · exact .inr ⟨q, hq', hqe, hx⟩
  rw [main]
  simp

theorem create_language_matrix_ok (results : List (String × List ModelStats))
    (matrix : List Row)
    (h : create_language_matrix results = .ok matrix) :
    matrix = List.insertionSort rowLE (matrixRows results) := by
  unfold create_language_matrix at h
  by_cases hempty : (matrixRows results).isEmpty
  · rw [if_pos hempty] at h
    exact Except.noConfusion h
  · rw [if_neg hempty] at h
    exact (Except.ok.inj h).symm

/-- C5: in any matrix produced by `create_language_matrix`, for any two
adjacent rows the earlier row's (Languages_Supported, Likes) pair is
lexicographically at least the later row's: rows are ordered descending by
supported-language count with ties broken by descending likes. -/
theorem c5_matrix_sorted (results : List (String × List ModelStats))
    (matrix : List Row)
    (hmatrix : create_language_matrix results = .ok matrix) :
    List.Chain'
      (fun a b =>
        b.languages_supported < a.languages_supported ∨
          (b.languages_supported = a.languages_supported ∧ b.likes ≤ a.likes))
      matrix := by
  rw [create_language_matrix_ok results matrix hmatrix]
  have hsorted := List.sorted_insertionSort rowLE (matrixRows results)
  exact List.Pairwise.chain' hsorted

/-- The oracle of the `Zulu: [zu, zul]` worked example: listing `zu` yields
`modelA, modelB`, listing `zul` yields `modelB, modelC`, every other
listing page is empty and every metadata GET raises; both passes see the
same listings. -/
def zuNet : Net where
  page := fun _ code p =>
    if code = "zu" ∧ p = 0 then .ok [[some "/modelA"], [some "/modelB"]]
    else if code = "zul" ∧ p = 0 then .ok [[some "/modelB"], [some "/modelC"]]
    else .ok []
  dl := fun _ => .error ()
  likes := fun _ => .error ()

/-- C5 witness: the sortedness statement instantiated at a concrete
one-language run. -/
theorem c5_witness :
    ∃ matrix,
      create_language_matrix [("Zulu", [failureStats "modelA"])] = .ok matrix ∧
      List.Chain'
        (fun a b =>
          b.languages_supported < a.languages_supported ∨
            (b.languages_supported = a.languages_supported ∧ b.likes ≤ a.likes))
        matrix :=
  ⟨_, rfl, c5_matrix_sorted [("Zulu", [failureStats "modelA"])] _ rfl⟩

/-- C1 witness: in the `zuNet` run, Zulu's column carries three `'Yes'`
flags, the length of its three-record result list. -/
theorem c1_witness :
    ∃ results matrix,
      scrape_all_languages zuNet = .ok results ∧
      create_language_matrix results = .ok matrix ∧
      alookup results "Zulu" =
        some [failureStats "modelA", failureStats "modelB", failureStats "modelC"] ∧
      countYes matrix "Zulu" = 3 := by
  refine ⟨_, _, rfl, rfl, by decide, ?_⟩
  exact c1_yes_count zuNet _ _ "Zulu" _ rfl rfl rfl

/-- C7: for every configured language, the per-language result set of a
successful scrape is the union, over that language's code aliases, of the
identifier sets returned by listing each alias (organize pass); and when it
is non-empty, the language's output file holds exactly those records, one
row per record. -/
theorem c7_union_of_aliases (net : Net)
    (results : List (String × List ModelStats)) (L : String)
    (codes : List String) (hL : (L, codes) ∈ LANGUAGES)
    (hscrape : scrape_all_languages net = .ok results) :
    ∃ models, alookup results L = some models ∧
      (∀ n, n ∈ models.map ModelStats.name ↔
        ∃ c ∈ codes, n ∈ get_model_names_for_language (net.page true) c 2) ∧
      (¬models.isEmpty →
        ("asr_models_" ++ pyLower L ++ ".csv", models) ∈
          savedLanguageFiles results) := by
  have hkeysnodup : (results.map Prod.fst).Nodup := by
    rw [scrape_keys net results hscrape]
    decide
  obtain ⟨models, hlk, hR⟩ :=
    forall₂_alookup_of_mem (scrape_forall₂ net results hscrape) (by decide) hL
  have hnames : models.map ModelStats.name =
      languageModels (net.page true) codes :=
    lookupAll_names _ _ _ (cacheNamed_statsPass net _) hR
  refine ⟨models, hlk, ?_, ?_⟩
  · intro n
    rw [hnames]
    exact mem_languageModels (net.page true) codes n
  · intro hne
    rw [mem_savedLanguageFiles]
    exact ⟨(L, models), (alookup_mem_iff results hkeysnodup L models).1 hlk,
      hne, rfl⟩

/-- C7 witness: the worked example — aliases `zu` listing `modelA, modelB`
and `zul` listing `modelB, modelC` give a Zulu result set of exactly the
three models `modelA, modelB, modelC`, and a Zulu output file of exactly
three rows. -/
theorem c7_witness :
    ∃ results models,
      scrape_all_languages zuNet = .ok results ∧
      alookup results "Zulu" = some models ∧
      (∀ n, n ∈ models.map ModelStats.name ↔
        ∃ c ∈ ["zu", "zul"],
          n ∈ get_model_names_for_language (zuNet.page true) c 2) ∧
      models.map ModelStats.name = ["modelA", "modelB", "modelC"] ∧
      models.length = 3 ∧
      ("asr_models_zulu.csv", models) ∈ savedLanguageFiles results := by
  obtain ⟨models, hlk, hmem, hfile⟩ :=
    c7_union_of_aliases zuNet _ "Zulu" ["zu", "zul"] (by decide) rfl
  have hmodels : models =
      [failureStats "modelA", failureStats "modelB", failureStats "modelC"] := by
    have hconcrete : alookup
        ((fun r => r) (match scrape_all_languages zuNet with
          | .ok r => r
          | .error _ => [])) "Zulu" =
        some [failureStats "modelA", failureStats "modelB", failureStats "modelC"] := by
      decide
    exact Option.some.inj ((hconcrete.symm.trans hlk).symm)
  refine ⟨_, models, rfl, hlk, hmem, ?_, ?_, ?_⟩
  · rw [hmodels]
    decide
  · rw [hmodels]
    rfl
  · have := hfile (by rw [hmodels]; decide)
    simpa using this

/-- C9: a language whose discovered-model set is empty gets no per-language
output file, and its matrix column carries zero `'Yes'` flags. -/
theorem c9_empty_language (net : Net)
    (results : List (String × List ModelStats)) (L : String)
    (matrix : List Row)
    (hscrape : scrape_all_languages net = .ok results)
    (hmatrix : create_language_matrix results = .ok matrix)
    (hlk : alookup results L = some []) :
    ("asr_models_" ++ pyLower L ++ ".csv") ∉
      (savedLanguageFiles results).map Prod.fst ∧
    countYes matrix L = 0 := by
  have hkeys : results.map Prod.fst = LANGUAGES.map Prod.fst :=
    scrape_keys net results hscrape
  have hkeysnodup : (results.map Prod.fst).Nodup := by
    rw [hkeys]
    decide
  have hL : L ∈ LANGUAGES.map Prod.fst := by
    rw [← hkeys]
    by_contra hc
    rw [← alookup_eq_none_iff results L] at hc
    rw [hc] at hlk
    exact Option.noConfusion hlk
  constructor
  · intro hmem
    obtain ⟨e, he, hfst⟩ := List.mem_map.1 hmem
    obtain ⟨p, hp, hpe, hx⟩ := (mem_savedLanguageFiles results e).1 he
    have hinj : ∀ a ∈ LANGUAGES.map Prod.fst, ∀ b ∈ LANGUAGES.map Prod.fst,
        "asr_models_" ++ pyLower a ++ ".csv" =
          "asr_models_" ++ pyLower b ++ ".csv" → a = b := by decide
    have hpL : p.1 ∈ LANGUAGES.map Prod.fst := by
      rw [← hkeys]
      exact List.mem_map_of_mem Prod.fst hp
    have hfname : "asr_models_" ++ pyLower p.1 ++ ".csv" =
        "asr_models_" ++ pyLower L ++ ".csv" := by
      rw [hx] at hfst
      exact hfst
    have hp1 : p.1 = L := hinj p.1 hpL L hL hfname
    have hsome : alookup results L = some p.2 := by
      rw [← hp1]
      exact (alookup_mem_iff results hkeysnodup p.1 p.2).2 (by
        obtain ⟨p1, p2⟩ := p
        exact hp)
    rw [hlk] at hsome
    have : p.2 = [] := (Option.some.inj hsome).symm
    rw [this] at hpe
    exact hpe rfl
  · have hmx := create_language_matrix_ok results matrix hmatrix
    have hcount : countYes matrix L = countYes (matrixRows results) L := by
      unfold countYes
      rw [hmx]
      exact (List.perm_insertionSort rowLE (matrixRows results)).countP_eq _
    rw [hcount, countYes_matrixRows results L hL]
    rw [List.countP_eq_zero]
    intro e he
    simp only [decide_eq_true_eq]
    intro hLmem
    have hsome : alookup (buildAllModels results) e.1 = some e.2 :=
      (alookup_mem_iff _ (build_keys_nodup results) e.1 e.2).2 (by
        obtain ⟨e1, e2⟩ := e
        exact he)
    have hlangs : L ∈ langsOf (buildAllModels results) e.1 := by
      unfold langsOf
      rw [hsome]
      exact hLmem
    unfold buildAllModels at hlangs
    rw [mem_langsOf_build results [] e.1 L] at hlangs
    rcases hlangs with h | ⟨ms, hms, hn⟩
    · simp [langsOf, alookup] at h
    · have : alookup results L = some ms :=
        (alookup_mem_iff results hkeysnodup L ms).2 hms
      rw [hlk] at this
      have hms0 : ms = [] := (Option.some.inj this).symm
      rw [hms0] at hn
      simp at hn

/-- An oracle under which Luo lists one model and every other listing is
empty; both passes see the same listings. -/
def c9net : Net where
  page := fun _ code p =>
    if code = "luo" ∧ p = 0 then .ok [[some "/m1"]] else .ok []
  dl := fun _ => .error ()
  likes := fun _ => .error ()

/-- C9 witness: in the `c9net` run Zulu discovers nothing, gets no output
file, and its column carries zero `'Yes'` flags. -/
theorem c9_witness :
    ∃ results matrix,
      scrape_all_languages c9net = .ok results ∧
      create_language_matrix results = .ok matrix ∧
      alookup results "Zulu" = some [] ∧
      ("asr_models_" ++ pyLower "Zulu" ++ ".csv") ∉
        (savedLanguageFiles results).map Prod.fst ∧
      countYes matrix "Zulu" = 0 := by
  have h := c9_empty_language c9net _ "Zulu" _ rfl rfl rfl
  exact ⟨_, _, rfl, rfl, by decide, h.1, h.2⟩

/-- An oracle whose collect-pass listings are all empty while the organize
pass lists `modelA` for code `zu`: the response sequence differs between
the two passes, as a live endpoint may. -/
def c4net : Net where
  page := fun pass3 code p =>
    if pass3 ∧ code = "zu" ∧ p = 0 then .ok [[some "/modelA"]] else .ok []
  dl := fun _ => .error ()
  likes := fun _ => .error ()

/-- C4 counterexample: with listing responses that differ between the
collect pass and the organize pass, the pipeline aborts with a `KeyError`
on the stats cache (`self.model_cache[model_name]`) instead of running to
completion. -/
theorem c4_counterexample :
    main_run c4net = .error "KeyError: modelA" ∧
    ∀ out, main_run c4net ≠ .ok out := by
  have h : main_run c4net = .error "KeyError: modelA" := by decide
  refine ⟨h, fun out hout => ?_⟩
  rw [h] at hout
  exact Except.noConfusion hout

/-- C4 (amended): the pipeline runs to completion and produces the partial
results gathered provided the organize-pass listings introduce no
identifier absent from the collect-pass listings (in particular whenever
listing responses are unchanged between passes) and at least one language's
organize-pass listing is non-empty; otherwise it can abort — a fresh
identifier in the organize pass hits a missing cache key, and an
all-empty run makes `sort_values` fail on the empty, column-less frame. -/
theorem c4_pipeline_completes (net : Net)
    (hsub : ∀ p ∈ LANGUAGES, ∀ n ∈ languageModels (net.page true) p.2,
      n ∈ allUniqueModels net)
    (hsome : ∃ p ∈ LANGUAGES, languageModels (net.page true) p.2 ≠ []) :
    ∃ results matrix,
      main_run net = .ok (results, matrix, savedLanguageFiles results) := by
  have hcachekeys := statsPass_hasKey net (allUniqueModels net)
  obtain ⟨results, hres⟩ := organizePass_total net _ LANGUAGES
    (fun p hp n hn => hcachekeys n (hsub p hp n hn))
  have hscrape : scrape_all_languages net = .ok results := hres
  have hkeysnodup : (results.map Prod.fst).Nodup := by
    rw [scrape_keys net results hscrape]
    decide
  obtain ⟨p, hp, hne⟩ := hsome
  obtain ⟨L, codes⟩ := p
  obtain ⟨models, hlk, hR⟩ :=
    forall₂_alookup_of_mem (scrape_forall₂ net results hscrape) (by decide) hp
  have hnames : models.map ModelStats.name = languageModels (net.page true) codes :=
    lookupAll_names _ _ _ (cacheNamed_statsPass net _) hR
  obtain ⟨n, hn⟩ : ∃ n, n ∈ models.map ModelStats.name := by
    rw [hnames]
    cases hcase : languageModels (net.page true) codes with
    | nil => exact absurd hcase hne
    | cons a l => exact ⟨a, List.mem_cons_self a l⟩
  have hkey : (alookup (buildAllModels results) n).isSome := by
    unfold buildAllModels
    rw [hasKey_build results [] n]
    exact .inr ⟨(L, models), (alookup_mem_iff results hkeysnodup L models).1 hlk, hn⟩
  have hbuildne : buildAllModels results ≠ [] := by
    intro hc
    rw [hc] at hkey
    simp [alookup] at hkey
  have hrowsne : ¬(matrixRows results).isEmpty := by
    rw [List.isEmpty_iff]
    unfold matrixRows
    intro hc
    exact hbuildne (List.map_eq_nil_iff.1 hc)
  have hcreate : create_language_matrix results =
      .ok (List.insertionSort rowLE (matrixRows results)) := by
    unfold create_language_matrix
    rw [if_neg hrowsne]
  refine ⟨results, List.insertionSort rowLE (matrixRows results), ?_⟩
  unfold main_run
  simp only [hscrape]
  simp only [hcreate]

/-- C4 witness: the amended statement instantiated at the pass-stable
`zuNet` oracle, whose pipeline completes with the gathered results. -/
theorem c4_witness :
    ∃ results matrix,
      main_run zuNet = .ok (results, matrix, savedLanguageFiles results) :=
  c4_pipeline_completes zuNet (by decide) (by decide)
